import Mathlib

/-!
Shallow embedding of the numeric-fact extraction and cross-document
matching core of `src/utils/documentProcessor.ts`.

Strings are modelled as Lean `String`/`List Char` (the source operates on
ASCII data; JavaScript `toLowerCase`/`toUpperCase`/`\s` are modelled on
their ASCII behaviour).  JavaScript numbers are modelled by `JSNum`:
exact rationals together with `nan` and the two infinities; decimal
parsing is exact (IEEE rounding is not modelled) and overflow to the
infinities happens at the double-precision overflow threshold, which is
what the reachable computations (decimal literals times a power of ten)
exercise.
-/

set_option exponentiation.threshold 1100

namespace DocReview

/-- ASCII part of JavaScript's `\s` character class. -/
def isJSSpace (c : Char) : Bool :=
  c = ' ' || c = '\t' || c = '\n' || c = '\x0b' || c = '\x0c' || c = '\r'

/-- JavaScript `String.prototype.toLowerCase`, ASCII fragment. -/
def toLowerStr (s : String) : String := ⟨s.data.map Char.toLower⟩

/-- JavaScript `String.prototype.trim` on a character list. -/
def trimChars (l : List Char) : List Char :=
  ((l.dropWhile isJSSpace).reverse.dropWhile isJSSpace).reverse

/-- JavaScript `String.prototype.trim`. -/
def trimStr (s : String) : String := ⟨trimChars s.data⟩

/-- JavaScript `String.prototype.split` with a one-character separator. -/
def splitOnChar (sep : Char) : List Char → List (List Char)
  | [] => [[]]
  | c :: cs =>
    let r := splitOnChar sep cs
    if c = sep then [] :: r
    else
      match r with
      | [] => [[c]]
      | h :: t => (c :: h) :: t

/-- Boolean exact-substring test at the head of a list. -/
def startsWith : List Char → List Char → Bool
  | [], _ => true
  | _ :: _, [] => false
  | p :: ps, c :: cs => p = c && startsWith ps cs

/-- Boolean exact-substring test, modelling JavaScript `String.prototype.includes`. -/
def containsSub (pat : List Char) : List Char → Bool
  | [] => startsWith pat []
  | c :: cs => startsWith pat (c :: cs) || containsSub pat cs

/-- JavaScript `s.includes(pat)` on Lean strings. -/
def hasSub (s : String) (pat : String) : Bool := containsSub pat.data s.data

/-- Case-insensitive head match (the pattern is given in lowercase):
returns the actually matched characters and the rest. -/
def takeCI : List Char → List Char → Option (List Char × List Char)
  | [], l => some ([], l)
  | _ :: _, [] => none
  | p :: ps, c :: cs =>
    if Char.toLower c = Char.toLower p then
      match takeCI ps cs with
      | some (m, r) => some (c :: m, r)
      | none => none
    else none

/-- First alternative of a case-insensitive alternation that matches at the
head, in the given order (as a backtracking regex engine tries them). -/
def takeAltCI : List (List Char) → List Char → Option (List Char × List Char)
  | [], _ => none
  | p :: ps, l =>
    match takeCI p l with
    | some x => some x
    | none => takeAltCI ps l

/-- A JavaScript number: `NaN`, the infinities, or a finite value
(modelled as an exact rational). -/
inductive JSNum where
  | nan : JSNum
  | posInf : JSNum
  | negInf : JSNum
  | num : ℚ → JSNum
deriving DecidableEq, Repr

/-- The double-precision overflow threshold `2 ^ 1024 - 2 ^ 970` (computed
in `ℕ` and cast): exact values of at least this magnitude round to an
infinity. -/
def jsOverflow : ℚ := ((2 ^ 1024 - 2 ^ 970 : ℕ) : ℚ)

/-- Clamp an exact rational to a JavaScript number, sending overflowing
magnitudes to the infinities. -/
def clampJS (q : ℚ) : JSNum :=
  if jsOverflow ≤ q then .posInf
  else if q ≤ -jsOverflow then .negInf
  else .num q

/-- Numeric value of a digit list, most significant digit first. -/
def digitsToNat (l : List Char) : Nat :=
  l.foldl (fun a c => a * 10 + (c.toNat - 48)) 0

/-- JavaScript `parseFloat` on the decimal fragment its reachable inputs
use: optional ASCII whitespace, optional sign, digits with an optional
fractional part; the longest valid prefix is parsed and anything after it
is ignored; `none` models a `NaN` result.  (Exponent forms never reach
`parseFloat` in this program: letters survive cleaning only as a leading
currency code or are removed with the scale token.) -/
def parseFloatPieces (l0 : List Char) : Option ℚ :=
  let l := l0.dropWhile isJSSpace
  let isNeg : Bool := match l with
    | '-' :: _ => true
    | _ => false
  let l1 := match l with
    | '-' :: r => r
    | '+' :: r => r
    | _ => l
  let ip := l1.takeWhile Char.isDigit
  let l2 := l1.dropWhile Char.isDigit
  let fp := match l2 with
    | '.' :: r => r.takeWhile Char.isDigit
    | _ => []
  if ip.isEmpty && fp.isEmpty then none
  else
    let den : Nat := 10 ^ fp.length
    let q : ℚ := mkRat (digitsToNat ip * den + digitsToNat fp) den
    some (if isNeg then -q else q)

/-- JavaScript `parseFloat` as a `JSNum`. -/
def parseFloatJS (l : List Char) : JSNum :=
  match parseFloatPieces l with
  | none => .nan
  | some q => clampJS q

/-- Multiplication of a JavaScript number by a nonzero rational constant
(the scale multipliers and the sign). -/
def jsMulQ (x : JSNum) (k : ℚ) : JSNum :=
  match x with
  | .nan => .nan
  | .num q => clampJS (q * k)
  | .posInf => if 0 < k then .posInf else if k < 0 then .negInf else .nan
  | .negInf => if 0 < k then .negInf else if k < 0 then .posInf else .nan

/-! Model of the candidate regex of `extractNumericalData`
(`documentProcessor.ts` line 85):

  (?:\$|USD|EUR|GBP)?\s*(?:\()?[\d,]+(?:\.\d{1,2})?(?:\))?(?:\s*(?:million|billion|thousand|M|B|K))?

with the `g` and `i` flags.  Each component is modelled as a function
taking the remaining input to the matched characters plus the rest;
everything after the mandatory `[\d,]+` is optional, so a committed
greedy scan is equivalent to the backtracking engine. -/

/-- The optional currency-marker alternation `(?:\$|USD|EUR|GBP)?`. -/
def matchCurrency (l : List Char) : List Char × List Char :=
  match takeAltCI [['$'], ['u', 's', 'd'], ['e', 'u', 'r'], ['g', 'b', 'p']] l with
  | some x => x
  | none => ([], l)

/-- The optional one-character group such as `(?:\()?`. -/
def matchOptChar (p : Char) (l : List Char) : List Char × List Char :=
  match l with
  | c :: cs => if c = p then ([c], cs) else ([], l)
  | [] => ([], l)

/-- The optional decimal suffix `(?:\.\d{1,2})?` (greedy, at most two digits). -/
def matchDecimal (l : List Char) : List Char × List Char :=
  match l with
  | c :: d :: cs =>
    if c = '.' then
      if d.isDigit then
        match cs with
        | e :: rest => if e.isDigit then ([c, d, e], rest) else ([c, d], cs)
        | [] => ([c, d], [])
      else ([], c :: d :: cs)
    else ([], c :: d :: cs)
  | _ => ([], l)

/-- The scale-word alternatives, in the order the regex tries them. -/
def scaleAlts : List (List Char) :=
  [['m', 'i', 'l', 'l', 'i', 'o', 'n'], ['b', 'i', 'l', 'l', 'i', 'o', 'n'],
   ['t', 'h', 'o', 'u', 's', 'a', 'n', 'd'], ['m'], ['b'], ['k']]

/-- The optional scale group `(?:\s*(?:million|billion|thousand|M|B|K))?`:
all or nothing, leading whitespace included. -/
def matchScale (l : List Char) : List Char × List Char :=
  match takeAltCI scaleAlts (l.dropWhile isJSSpace) with
  | some x => (l.takeWhile isJSSpace ++ x.1, x.2)
  | none => ([], l)

/-- One attempt of the candidate regex at the current position: the match
and the remaining input, or `none` when the mandatory digit group is
empty here. -/
def matchNumberAt (l : List Char) : Option (List Char × List Char) :=
  let cur := (matchCurrency l).1
  let r1 := (matchCurrency l).2
  let ws := r1.takeWhile isJSSpace
  let r2 := r1.dropWhile isJSSpace
  let op := (matchOptChar '(' r2).1
  let r3 := (matchOptChar '(' r2).2
  let ds := r3.takeWhile (fun c => c.isDigit || c = ',')
  let r4 := r3.dropWhile (fun c => c.isDigit || c = ',')
  if ds.isEmpty then none
  else
    let dec := (matchDecimal r4).1
    let r5 := (matchDecimal r4).2
    let cp := (matchOptChar ')' r5).1
    let r6 := (matchOptChar ')' r5).2
    let sc := (matchScale r6).1
    let r7 := (matchScale r6).2
    some (cur ++ ws ++ op ++ ds ++ dec ++ cp ++ sc, r7)

/-- The global scan, structurally recursive on a fuel argument; every
step strictly shortens the input, so fuel equal to the input length is
sufficient (`findNumberMatches_cons` below recovers the intended
recurrence). -/
def goFind : Nat → List Char → List (List Char)
  | 0, _ => []
  | _ + 1, [] => []
  | fuel + 1, c :: cs =>
    match matchNumberAt (c :: cs) with
    | some (m, r) => m :: goFind fuel r
    | none => goFind fuel cs

/-- Global matching of the candidate regex over one line (JavaScript
`line.match(numberRegex) || []`): leftmost matches, scanning resumes
after each match, the scan position advances by one character on
failure. -/
def findNumberMatches (l : List Char) : List (List Char) :=
  goFind l.length l

/-! Normalization of one regex match, `documentProcessor.ts` lines 93-117
(and its verbatim copy for table cells, lines 165-186). -/

/-- JavaScript `match.replace(/[$,\s]/g, '')`. -/
def cleanedNumber (m : List Char) : List Char :=
  m.filter (fun c => !(c = '$' || c = ',' || isJSSpace c))

/-- Case-insensitive substring test (the pattern is lowercase). -/
def containsCI (pat : List Char) (l : List Char) : Bool :=
  containsSub pat (l.map Char.toLower)

/-- JavaScript `/word|L$/i.test(m)`: the scale word occurs anywhere, or the
letter abbreviation is the last character. -/
def testScale (w : List Char) (suf : Char) (m : List Char) : Bool :=
  containsCI w m ||
    (match m.getLast? with
     | some c => Char.toLower c = suf
     | none => false)

/-- Fuel-indexed worker for the scale-token removal; each step consumes
at least one character, so fuel equal to the input length is sufficient. -/
def goRemove (w : List Char) (suf : Char) : Nat → List Char → List Char
  | 0, _ => []
  | _ + 1, [] => []
  | fuel + 1, c :: cs =>
    if takeCI w (c :: cs) ≠ none then goRemove w suf fuel (cs.drop (w.length - 1))
    else if cs.isEmpty && Char.toLower c = suf then []
    else c :: goRemove w suf fuel cs

/-- JavaScript `s.replace(/word|L$/gi, '')`: remove every case-insensitive
occurrence of the scale word, scanning left to right, and a final
letter abbreviation. -/
def removeScaleTokens (w : List Char) (suf : Char) (l : List Char) : List Char :=
  goRemove w suf l.length l

def millionWord : List Char := ['m', 'i', 'l', 'l', 'i', 'o', 'n']

def billionWord : List Char := ['b', 'i', 'l', 'l', 'i', 'o', 'n']

def thousandWord : List Char := ['t', 'h', 'o', 'u', 's', 'a', 'n', 'd']

/-- The full normalization of one match `m`: cleaning, accounting-style
parentheses, scale multiplier, `parseFloat`, and the two multiplications,
exactly in the source's order. -/
def matchValue (m : List Char) : JSNum :=
  let clean0 := cleanedNumber m
  let isNegative := clean0.contains '(' && clean0.contains ')'
  let clean1 :=
    if isNegative then clean0.filter (fun c => !(c = '(' || c = ')')) else clean0
  let mult : ℚ :=
    if testScale millionWord 'm' m then 1000000
    else if testScale billionWord 'b' m then 1000000000
    else if testScale thousandWord 'k' m then 1000
    else 1
  let clean2 :=
    if testScale millionWord 'm' m then removeScaleTokens millionWord 'm' clean1
    else if testScale billionWord 'b' m then removeScaleTokens billionWord 'b' clean1
    else if testScale thousandWord 'k' m then removeScaleTokens thousandWord 'k' clean1
    else clean1
  jsMulQ (jsMulQ (parseFloatJS clean2) mult) (if isNegative then -1 else 1)

/-- The push-guard `!isNaN(value) && value !== 0` (note `-0 === 0` in
JavaScript; `ℚ` has a single zero, so the equality test is faithful). -/
def keepValue (v : JSNum) : Bool :=
  decide (v ≠ JSNum.nan) && decide (v ≠ JSNum.num 0)

/-! Context classification, `documentProcessor.ts` lines 121-142 (text
lines) and 192-214 (table cells). -/

/-- Leftmost occurrence of the year pattern `/20(2[0-9]|1[0-9])/`: try the
four-character pattern at each position, else advance by one. -/
def yearScan : List Char → Option (List Char)
  | [] => none
  | c0 :: cs =>
    match cs with
    | c1 :: c2 :: c3 :: _ =>
      if c0 = '2' && c1 = '0' && (c2 = '1' || c2 = '2') && c3.isDigit then
        some [c0, c1, c2, c3]
      else yearScan cs
    | _ => yearScan cs

/-- Year detection on an (already lowercased) context string. -/
def yearOf (cw : String) : Option String := (yearScan cw.data).map (fun l => (⟨l⟩ : String))

/-- The metric-keyword cascade of the text branch of `extractNumericalData`
(first match wins; note `expenditure` counts as an expense keyword here). -/
def textMetricOf (cw : String) : Option String :=
  if hasSub cw "revenue" || hasSub cw "sales" || hasSub cw "income" then some "revenue"
  else if hasSub cw "expense" || hasSub cw "cost" || hasSub cw "expenditure" then some "expense"
  else if hasSub cw "profit" || hasSub cw "net" || hasSub cw "earnings" then some "profit"
  else if hasSub cw "total" || hasSub cw "sum" then some "total"
  else if hasSub cw "asset" then some "asset"
  else if hasSub cw "liability" then some "liability"
  else none

/-- The `contextType` computed for a text line (year prefix applied per
branch in the source; computing the year once is equivalent). -/
def textContextType (cw : String) : String :=
  match textMetricOf cw, yearOf cw with
  | some m, some y => y ++ "_" ++ m
  | some m, none => m
  | none, some y => y ++ "_figure"
  | none, none => "number"

/-- The metric-keyword cascade of the table branch (no `expenditure`). -/
def tableMetricOf (cw : String) : Option String :=
  if hasSub cw "revenue" || hasSub cw "sales" || hasSub cw "income" then some "revenue"
  else if hasSub cw "expense" || hasSub cw "cost" then some "expense"
  else if hasSub cw "profit" || hasSub cw "net" || hasSub cw "earnings" then some "profit"
  else if hasSub cw "total" || hasSub cw "sum" then some "total"
  else if hasSub cw "asset" then some "asset"
  else if hasSub cw "liability" then some "liability"
  else none

/-- The `contextType` computed for a table cell. -/
def tableContextType (cw : String) : String :=
  match tableMetricOf cw, yearOf cw with
  | some m, some y => y ++ "_" ++ m
  | some m, none => m
  | none, some y => y ++ "_figure"
  | none, none => "table_value"

/-! The fact extractor, `extractNumericalData` (lines 80-228). -/

/-- One extracted numeric fact (`numericalData` entry). -/
structure NumericalFact where
  value : JSNum
  context : String
  location : String
deriving DecidableEq, Repr

/-- One simple two-dimensional table as handed to the extractor. -/
structure Table where
  headers : List String
  rows : List (List String)
deriving DecidableEq, Repr

/-- Facts extracted from one text line (0-based index `lineIndex`). -/
def lineFacts (lineIndex : Nat) (line : String) : List NumericalFact :=
  (findNumberMatches line.data).filterMap fun m =>
    let value := matchValue m
    if keepValue value then
      some { value := value
             context := textContextType (toLowerStr line) ++ ": " ++ trimStr line
             location := "Line " ++ toString (lineIndex + 1) }
    else none

/-- The text pass: split on newlines, process each line. -/
def textFacts (text : String) : List NumericalFact :=
  ((splitOnChar '\n' text.data).map (fun l => (⟨l⟩ : String))).enum.flatMap
    fun p => lineFacts p.1 p.2

/-- Facts extracted from one table cell; empty/blank cells are skipped,
missing or empty header and row label fall back to positional names. -/
def cellFacts (tableIndex rowIndex cellIndex : Nat) (table : Table) (row : List String)
    (cell : String) : List NumericalFact :=
  if trimStr cell = "" then []
  else
    (findNumberMatches cell.data).filterMap fun m =>
      let value := matchValue m
      if keepValue value then
        let header := match table.headers.get? cellIndex with
          | some h => if h = "" then "Column " ++ toString (cellIndex + 1) else h
          | none => "Column " ++ toString (cellIndex + 1)
        let rowLabel := match row.get? 0 with
          | some h0 => if h0 = "" then "Row " ++ toString (rowIndex + 1) else h0
          | none => "Row " ++ toString (rowIndex + 1)
        some { value := value
               context := tableContextType (toLowerStr (header ++ " " ++ rowLabel)) ++ ": " ++
                 rowLabel ++ " - " ++ header ++ " (" ++ cell ++ ")"
               location := "Table " ++ toString (tableIndex + 1) ++ ", " ++ rowLabel ++ ", " ++
                 header }
      else none

/-- The table pass. -/
def tableFacts (tables : List Table) : List NumericalFact :=
  tables.enum.flatMap fun tp =>
    tp.2.rows.enum.flatMap fun rp =>
      rp.2.enum.flatMap fun cp =>
        cellFacts tp.1 rp.1 cp.1 tp.2 rp.2 cp.2

/-- The extractor `extractNumericalData(text, tables)`: text facts in line
order followed by table facts in table/row/cell order. -/
def extractNumericalData (text : String) (tables : List Table) : List NumericalFact :=
  textFacts text ++ tableFacts tables

/-! The cross-document matcher, `performCrossDocumentValidation`
(lines 361-567).  The function is `async` in the source: it reads the
clock (`Date.now()` in the record ids) and calls the external AI
collaborator, whose response is merged into the result (and whose thrown
failure makes the whole call return `[]`).  Those two effects enter the
model as explicit parameters: `now` for the clock reading and
`aiResults` for the collaborator response (`none` models the AI call
throwing). -/

/-- The input shape: one document's extracted facts. -/
structure DocumentFactSet where
  id : String
  name : String
  numericalData : List NumericalFact
deriving DecidableEq, Repr

/-- One `(documentName, value, location)` triple of an inconsistency. -/
structure DocValue where
  documentName : String
  value : JSNum
  location : String
deriving DecidableEq, Repr

/-- One cross-document inconsistency record. -/
structure CrossRecord where
  id : String
  fieldName : String
  validationType : String
  isConsistent : Bool
  errorMessage : String
  values : List DocValue
deriving DecidableEq, Repr

/-- The matcher's metric-type cascade (lines 388-401); note that
profit/net/earnings is tested before expense/cost here, and `total` has
no `sum` keyword. -/
def matcherMetricOf (context : String) : String :=
  if hasSub context "revenue" || hasSub context "sales" || hasSub context "income" then "revenue"
  else if hasSub context "profit" || hasSub context "net" || hasSub context "earnings" then "profit"
  else if hasSub context "expense" || hasSub context "cost" then "expense"
  else if hasSub context "total" then "total"
  else if hasSub context "asset" then "asset"
  else if hasSub context "liability" then "liability"
  else "unknown"

/-- Character class kept by `context.replace(/[^a-z0-9\s]/g, '')`. -/
def isRawKeyChar (c : Char) : Bool := c.isLower || c.isDigit || isJSSpace c

/-- The exact-context fallback key (lowercased context stripped to
`[a-z0-9\s]` and trimmed). -/
def rawKeyOf (context : String) : String := ⟨trimChars (context.data.filter isRawKeyChar)⟩

/-- The candidate match keys of one fact, in the order the source pushes
them (lines 380-424); `context` is the fact's context, lowercased first. -/
def factKeys (context0 : String) : List String :=
  let context := toLowerStr context0
  let year := yearOf context
  let metricType := matcherMetricOf context
  (match year with
   | some y => if metricType ≠ "unknown" then [y ++ "_" ++ metricType] else []
   | none => []) ++
  (match year with
   | some y => [y ++ "_any"]
   | none => []) ++
  (if metricType ≠ "unknown" then ["any_" ++ metricType] else []) ++
  [rawKeyOf context]

/-- A JavaScript `Map` from keys to value/location lists, in insertion
order, as an association list. -/
abbrev MetricIndex := List (String × List (JSNum × String))

/-- JavaScript `metrics.has(key)`. -/
def indexHas (m : MetricIndex) (key : String) : Bool :=
  m.any (fun e => decide (e.1 = key))

/-- JavaScript `metrics.get(key)` (empty when absent; the source only
reads keys it has). -/
def indexGet (m : MetricIndex) (key : String) : List (JSNum × String) :=
  match m.find? (fun e => decide (e.1 = key)) with
  | some e => e.2
  | none => []

/-- JavaScript `metrics.get(key).push(v)` with `set` on a fresh key:
existing buckets grow in place, new keys append at the end. -/
def indexPush (m : MetricIndex) (key : String) (v : JSNum × String) : MetricIndex :=
  if indexHas m key then
    m.map (fun e => if e.1 = key then (e.1, e.2 ++ [v]) else e)
  else m ++ [(key, [v])]

/-- The per-document key index built from its facts (lines 378-424). -/
def buildMetrics (facts : List NumericalFact) : MetricIndex :=
  facts.foldl
    (fun m item =>
      (factKeys item.context).foldl (fun m2 key => indexPush m2 key (item.value, item.location)) m)
    []

/-- Per-document `(documentName, metrics)` pairs, in document order
(the unused `documentId` is dropped). -/
def documentMetrics (documents : List DocumentFactSet) : List (String × MetricIndex) :=
  documents.map fun doc => (doc.name, buildMetrics doc.numericalData)

/-- JavaScript `Set` insertion-order deduplication. -/
def dedupFirst {α : Type} [DecidableEq α] (l : List α) : List α :=
  l.foldl (fun seen x => if x ∈ seen then seen else seen ++ [x]) []

/-- The union of all documents' keys, in first-insertion order (the
`allKeys` set, lines 434-437). -/
def allKeysOf (dms : List (String × MetricIndex)) : List String :=
  dedupFirst (dms.flatMap fun dm => dm.2.map Prod.fst)

/-- The documents whose index has `key`, in document order. -/
def docsWithKey (dms : List (String × MetricIndex)) (key : String) : List (String × MetricIndex) :=
  dms.filter fun dm => indexHas dm.2 key

/-- All `(documentName, value, location)` triples registered under `key`,
in document order (lines 444-455). -/
def allValuesFor (dms : List (String × MetricIndex)) (key : String) : List DocValue :=
  (docsWithKey dms key).flatMap fun dm =>
    (indexGet dm.2 key).map fun v => ⟨dm.1, v.1, v.2⟩

/-- The distinct values under `key` (`[...new Set(...)]`). -/
def uniqueValuesFor (dms : List (String × MetricIndex)) (key : String) : List JSNum :=
  dedupFirst ((allValuesFor dms key).map DocValue.value)

/-- JavaScript `\w` (word character). -/
def isWordChar (c : Char) : Bool := c.isAlpha || c.isDigit || c = '_'

/-- JavaScript `s.replace(/\b\w/g, l => l.toUpperCase())`: uppercase every
word character that starts a word; the flag carries whether the previous
character was a word character. -/
def titleAux : Bool → List Char → List Char
  | _, [] => []
  | prevWord, c :: cs =>
    (if isWordChar c && !prevWord then c.toUpper else c) :: titleAux (isWordChar c) cs

/-- Replace the first `'_'` only (JavaScript `key.replace('_', ' ')`). -/
def replaceFirstUnderscore : List Char → List Char
  | [] => []
  | c :: cs => if c = '_' then ' ' :: cs else c :: replaceFirstUnderscore cs

/-- The human-friendly field name of a key (lines 462-464): keys holding
an underscore get underscore-to-space plus title case; other keys get
only their first character uppercased. -/
def renderFieldName (key : String) : String :=
  if key.data.contains '_' then ⟨titleAux false (replaceFirstUnderscore key.data)⟩
  else
    match key.data with
    | [] => ""
    | c :: cs => ⟨c.toUpper :: cs⟩

/-- The record id `cross-${key}-${Date.now()}`. -/
def crossId (key : String) (now : Nat) : String :=
  "cross-" ++ key ++ "-" ++ toString now

/-- The error message attached to an inconsistency. -/
def inconsistencyMessage (fieldName : String) : String :=
  "Different values found for \"" ++ fieldName ++
    "\" across documents. Expected all documents to have the same value."

/-- The records emitted for one key (lines 439-476): one record when at
least two documents hold the key and more than one distinct value is
registered under it, none otherwise. -/
def recordForKey (dms : List (String × MetricIndex)) (now : Nat) (key : String) :
    List CrossRecord :=
  if 2 ≤ (docsWithKey dms key).length then
    if 2 ≤ (uniqueValuesFor dms key).length then
      [{ id := crossId key now
         fieldName := renderFieldName key
         validationType := "cross_reference"
         isConsistent := false
         errorMessage := inconsistencyMessage (renderFieldName key)
         values := allValuesFor dms key }]
    else []
  else []

/-- The rule-based inconsistency list (the `inconsistencies` array). -/
def ruleInconsistencies (documents : List DocumentFactSet) (now : Nat) : List CrossRecord :=
  (allKeysOf (documentMetrics documents)).flatMap
    (recordForKey (documentMetrics documents) now)

/-- Rank-then-value order on JavaScript numbers.  The source sorts the
value arrays with the default (string) comparator only to compare them
for equality, so any fixed total order yields the same dedup predicate;
this one is used in its place. -/
def jsNumLE (a b : JSNum) : Bool :=
  match a, b with
  | .nan, _ => true
  | _, .nan => false
  | .negInf, _ => true
  | _, .negInf => false
  | .num p, .num q => decide (p ≤ q)
  | .num _, .posInf => true
  | .posInf, .num _ => false
  | .posInf, .posInf => true

/-- Insertion into a sorted list. -/
def insertSorted (x : JSNum) : List JSNum → List JSNum
  | [] => [x]
  | y :: ys => if jsNumLE x y then x :: y :: ys else y :: insertSorted x ys

/-- Canonical sort of a value multiset (stands in for JavaScript
`values.map(v => v.value).sort()`, used only for equality comparison). -/
def sortVals (l : List JSNum) : List JSNum := l.foldr insertSorted []

/-- The dedup predicate of lines 555-560: same `fieldName` and the same
multiset of reported values. -/
def sameIssue (a b : CrossRecord) : Bool :=
  decide (a.fieldName = b.fieldName) &&
    decide (sortVals (a.values.map DocValue.value) = sortVals (b.values.map DocValue.value))

/-- Keep each record only when no earlier record (kept or not) matches it
(`index === array.findIndex(...)`). -/
def keepFirstAux (seen : List CrossRecord) : List CrossRecord → List CrossRecord
  | [] => []
  | r :: rest =>
    if seen.any (fun s => sameIssue s r) then keepFirstAux (seen ++ [r]) rest
    else r :: keepFirstAux (seen ++ [r]) rest

/-- The final dedup pass over rule-based plus AI records. -/
def dedupResults (l : List CrossRecord) : List CrossRecord := keepFirstAux [] l

/-- The matcher `performCrossDocumentValidation(documents)`: under two
documents short-circuits to `[]`; otherwise the rule-based records
(with clock-derived ids) are concatenated with the AI collaborator's
records and deduplicated.  `aiResults = none` models the collaborator
throwing, in which case the surrounding `catch` returns `[]` and the
rule-based findings are lost too. -/
def performCrossDocumentValidation (documents : List DocumentFactSet) (now : Nat)
    (aiResults : Option (List CrossRecord)) : List CrossRecord :=
  if documents.length < 2 then []
  else
    match aiResults with
    | none => []
    | some ai => dedupResults (ruleInconsistencies documents now ++ ai)

/-- A record with its clock-derived id blanked, for stating what is
deterministic about the matcher. -/
def stripRecordId (r : CrossRecord) : CrossRecord :=
  { r with id := "" }

/-- Modelled from the spec: the field-name rendering as §4.2 words it,
"underscore replaced by space, title-cased", applied to every key; kept
separate from `renderFieldName` (the source's rendering) for comparison. -/
def renderFieldNameSpec (key : String) : String :=
  ⟨titleAux false (replaceFirstUnderscore key.data)⟩

/-! Concrete inputs used by the counterexamples and witnesses. -/

/-- First document of the spec's running example: one fact tagged as 2024
revenue with value 150000 (the context is what the extractor produces for
the line `2024 Revenue: 150,000`). -/
def reportA : DocumentFactSet :=
  ⟨"doc-1", "Report A", [⟨JSNum.num 150000, "2024_revenue: 2024 Revenue: 150,000", "Line 1"⟩]⟩

/-- Second document of the running example: same metric, value 145000. -/
def reportB : DocumentFactSet :=
  ⟨"doc-2", "Report B", [⟨JSNum.num 145000, "2024_revenue: 2024 Revenue: 145,000", "Line 1"⟩]⟩

/-- A document whose single fact has no year and no metric keyword, so its
only match key is the raw two-word fallback key `foo bar`. -/
def plainDocC : DocumentFactSet :=
  ⟨"doc-1", "Plain C", [⟨JSNum.num 1, "foo bar", "Line 1"⟩]⟩

/-- Companion document with the same raw key and a different value. -/
def plainDocD : DocumentFactSet :=
  ⟨"doc-2", "Plain D", [⟨JSNum.num 2, "foo bar", "Line 2"⟩]⟩

/-- A single document holding two conflicting values for the same metric. -/
def soloDoc : DocumentFactSet :=
  ⟨"doc-1", "Solo",
    [⟨JSNum.num 100, "total: Total: 100", "Line 1"⟩,
     ⟨JSNum.num 200, "total: Total: 200", "Line 2"⟩]⟩

/-- A text line holding a 320-digit numeric literal, which parses beyond
the double-precision overflow threshold. -/
def hugeLine : String := ⟨List.replicate 320 '9'⟩

/-! Predicates describing the keys the matcher can ever index (used to
show distinct keys render to distinct field names). -/

/-- The metric-type names the matcher's cascade can produce. -/
def metricNames : List String :=
  ["revenue", "profit", "expense", "total", "asset", "liability"]

/-- Shape of a detected year string: `20` then `1x` or `2x`. -/
def IsYearStr (y : String) : Prop :=
  ∃ c d, y = (⟨['2', '0', c, d]⟩ : String) ∧ (c = '1' ∨ c = '2') ∧ d.isDigit = true

/-- The derived (underscore-carrying) key shapes. -/
def IsDerivedKey (k : String) : Prop :=
  (∃ y m, IsYearStr y ∧ m ∈ metricNames ∧ k = y ++ "_" ++ m) ∨
  (∃ y, IsYearStr y ∧ k = y ++ "_any") ∨
  (∃ m, m ∈ metricNames ∧ k = "any_" ++ m)

/-- The raw fallback keys: every character lowercase, digit or whitespace. -/
def IsRawKey (k : String) : Prop :=
  ∀ c ∈ k.data, isRawKeyChar c = true

/-- Every key `factKeys` can produce. -/
def ProducedKey (k : String) : Prop := IsDerivedKey k ∨ IsRawKey k

/-! Structural facts about the regex scan: each component of
`matchNumberAt` consumes a prefix of its input, a successful match is
nonempty, and the fuel-indexed scan satisfies the intended recurrence. -/

theorem takeCI_append :
    ∀ (p l m r : List Char), takeCI p l = some (m, r) → l = m ++ r := by
  intro p
  induction p with
  | nil =>
    intro l m r h
    simp only [takeCI, Option.some.injEq, Prod.mk.injEq] at h
    rw [← h.1, ← h.2]
    simp
  | cons p ps ih =>
    intro l m r h
    cases l with
    | nil => simp [takeCI] at h
    | cons c cs =>
      simp only [takeCI] at h
      split at h
      · cases h1 : takeCI ps cs with
        | none => rw [h1] at h; exact absurd h (by simp)
        | some x =>
          obtain ⟨m1, r1⟩ := x
          rw [h1] at h
          simp only [Option.some.injEq, Prod.mk.injEq] at h
          obtain ⟨hm, hr⟩ := h
          subst hr
          rw [← hm]
          have := ih cs m1 r1 h1
          simp [this]
      · exact absurd h (by simp)

theorem takeAltCI_append :
    ∀ (ps : List (List Char)) (l m r : List Char),
      takeAltCI ps l = some (m, r) → l = m ++ r := by
  intro ps
  induction ps with
  | nil => intro l m r h; simp [takeAltCI] at h
  | cons p ps ih =>
    intro l m r h
    simp only [takeAltCI] at h
    cases h1 : takeCI p l with
    | none => rw [h1] at h; exact ih l m r h
    | some x =>
      obtain ⟨m1, r1⟩ := x
      rw [h1] at h
      simp only [Option.some.injEq, Prod.mk.injEq] at h
      obtain ⟨hm, hr⟩ := h
      subst hm; subst hr
      exact takeCI_append p l m1 r1 h1

theorem matchCurrency_append (l : List Char) :
    l = (matchCurrency l).1 ++ (matchCurrency l).2 := by
  unfold matchCurrency
  cases h : takeAltCI [['$'], ['u', 's', 'd'], ['e', 'u', 'r'], ['g', 'b', 'p']] l with
  | none => simp
  | some x => simpa using takeAltCI_append _ l x.1 x.2 (by rw [h])

theorem matchOptChar_append (p : Char) (l : List Char) :
    l = (matchOptChar p l).1 ++ (matchOptChar p l).2 := by
  unfold matchOptChar
  cases l with
  | nil => simp
  | cons c cs => by_cases h : c = p <;> simp [h]

theorem matchDecimal_append (l : List Char) :
    l = (matchDecimal l).1 ++ (matchDecimal l).2 := by
  unfold matchDecimal
  rcases l with _ | ⟨c, _ | ⟨d, cs⟩⟩
  · simp
  · simp
  · by_cases hc : c = '.'
    · by_cases hd : d.isDigit
      · cases cs with
        | nil => simp [hc, hd]
        | cons e es => by_cases he : e.isDigit <;> simp [hc, hd, he]
      · simp [hc, hd]
    · simp [hc]

theorem matchScale_append (l : List Char) :
    l = (matchScale l).1 ++ (matchScale l).2 := by
  unfold matchScale
  cases h : takeAltCI scaleAlts (l.dropWhile isJSSpace) with
  | none => simp
  | some x =>
    have h2 := takeAltCI_append _ _ x.1 x.2 (by rw [h])
    simp only
    calc l = l.takeWhile isJSSpace ++ l.dropWhile isJSSpace :=
          (List.takeWhile_append_dropWhile _ _).symm
    _ = l.takeWhile isJSSpace ++ (x.1 ++ x.2) := by rw [← h2]
    _ = (l.takeWhile isJSSpace ++ x.1) ++ x.2 := by simp

theorem matchNumberAt_append {l m r : List Char} (h : matchNumberAt l = some (m, r)) :
    l = m ++ r ∧ m ≠ [] := by
  simp only [matchNumberAt] at h
  set cur := (matchCurrency l).1 with hcur
  set r1 := (matchCurrency l).2 with hr1
  set ws := r1.takeWhile isJSSpace with hws
  set r2 := r1.dropWhile isJSSpace with hr2
  set op := (matchOptChar '(' r2).1 with hop
  set r3 := (matchOptChar '(' r2).2 with hr3
  set ds := r3.takeWhile (fun c => c.isDigit || c = ',') with hds
  set r4 := r3.dropWhile (fun c => c.isDigit || c = ',') with hr4
  cases hempty : ds.isEmpty with
  | true => rw [hempty] at h; simp at h
  | false =>
    rw [hempty] at h
    set dec := (matchDecimal r4).1 with hdec
    set r5 := (matchDecimal r4).2 with hr5
    set cp := (matchOptChar ')' r5).1 with hcp
    set r6 := (matchOptChar ')' r5).2 with hr6
    set sc := (matchScale r6).1 with hsc
    set r7 := (matchScale r6).2 with hr7
    simp only [Bool.false_eq_true, if_false, Option.some.injEq, Prod.mk.injEq] at h
    obtain ⟨hm, hr⟩ := h
    have e1 := matchCurrency_append l
    have e2 := List.takeWhile_append_dropWhile (p := isJSSpace) (l := r1)
    have e3 := matchOptChar_append '(' r2
    have e4 := List.takeWhile_append_dropWhile (p := fun c => c.isDigit || c = ',') (l := r3)
    have e5 := matchDecimal_append r4
    have e6 := matchOptChar_append ')' r5
    have e7 := matchScale_append r6
    rw [← hcur, ← hr1] at e1
    rw [← hws, ← hr2] at e2
    rw [← hop, ← hr3] at e3
    rw [← hds, ← hr4] at e4
    rw [← hdec, ← hr5] at e5
    rw [← hcp, ← hr6] at e6
    rw [← hsc, ← hr7] at e7
    constructor
    · subst hm; subst hr
      calc l = cur ++ r1 := e1
      _ = cur ++ (ws ++ r2) := by rw [← e2]
      _ = cur ++ (ws ++ (op ++ r3)) := by rw [← e3]
      _ = cur ++ (ws ++ (op ++ (ds ++ r4))) := by rw [← e4]
      _ = cur ++ (ws ++ (op ++ (ds ++ (dec ++ r5)))) := by rw [← e5]
      _ = cur ++ (ws ++ (op ++ (ds ++ (dec ++ (cp ++ r6))))) := by rw [← e6]
      _ = cur ++ (ws ++ (op ++ (ds ++ (dec ++ (cp ++ (sc ++ r7)))))) := by rw [← e7]
      _ = cur ++ ws ++ op ++ ds ++ dec ++ cp ++ sc ++ r7 := by simp
    · subst hm
      intro hnil
      simp only [List.append_eq_nil] at hnil
      have hds0 : ds = [] := by tauto
      rw [hds0] at hempty
      simp at hempty

theorem matchNumberAt_rest_length {l m r : List Char} (h : matchNumberAt l = some (m, r)) :
    r.length < l.length := by
  obtain ⟨heq, hne⟩ := matchNumberAt_append h
  have h1 : l.length = m.length + r.length := by rw [heq]; simp
  have h2 : 0 < m.length := List.length_pos.mpr hne
  omega

theorem goFind_congr :
    ∀ (fuel fuel' : Nat) (l : List Char), l.length ≤ fuel → l.length ≤ fuel' →
      goFind fuel l = goFind fuel' l := by
  intro fuel
  induction fuel with
  | zero =>
    intro fuel' l h _
    have : l = [] := List.length_eq_zero.mp (Nat.le_zero.mp h)
    subst this
    cases fuel' <;> rfl
  | succ fuel ih =>
    intro fuel' l h h'
    cases l with
    | nil => cases fuel' <;> rfl
    | cons c cs =>
      cases fuel' with
      | zero => simp at h'
      | succ fuel' =>
        simp only [goFind]
        cases hm : matchNumberAt (c :: cs) with
        | none =>
          have hlen : cs.length ≤ fuel := by simp at h; omega
          have hlen' : cs.length ≤ fuel' := by simp at h'; omega
          rw [ih fuel' cs hlen hlen']
        | some x =>
          obtain ⟨m, r⟩ := x
          have hr := matchNumberAt_rest_length hm
          have hlen : r.length ≤ fuel := by simp at hr h; omega
          have hlen' : r.length ≤ fuel' := by simp at hr h'; omega
          show m :: goFind fuel r = m :: goFind fuel' r
          rw [ih fuel' r hlen hlen']

/-- The scan satisfies the intended (non-structural) recurrence. -/
theorem findNumberMatches_cons (c : Char) (cs : List Char) :
    findNumberMatches (c :: cs) =
      (match matchNumberAt (c :: cs) with
       | some (m, r) => m :: findNumberMatches r
       | none => findNumberMatches cs) := by
  unfold findNumberMatches
  simp only [List.length_cons, goFind]
  cases hm : matchNumberAt (c :: cs) with
  | none => exact goFind_congr _ _ _ (by omega) (by omega)
  | some x =>
    obtain ⟨m, r⟩ := x
    have hr := matchNumberAt_rest_length hm
    simp only [List.length_cons] at hr
    show m :: goFind cs.length r = m :: goFind r.length r
    rw [goFind_congr cs.length r.length r (by omega) (by omega)]

set_option maxRecDepth 100000

theorem goRemove_congr (w : List Char) (suf : Char) :
    ∀ (fuel fuel' : Nat) (l : List Char), l.length ≤ fuel → l.length ≤ fuel' →
      goRemove w suf fuel l = goRemove w suf fuel' l := by
  intro fuel
  induction fuel with
  | zero =>
    intro fuel' l h _
    have hl : l = [] := List.length_eq_zero.mp (Nat.le_zero.mp h)
    subst hl
    cases fuel' <;> rfl
  | succ fuel ih =>
    intro fuel' l h h'
    cases l with
    | nil => cases fuel' <;> rfl
    | cons c cs =>
      cases fuel' with
      | zero => simp at h'
      | succ fuel' =>
        simp only [goRemove]
        have hdrop : (cs.drop (w.length - 1)).length ≤ cs.length := by
          rw [List.length_drop]
          omega
        simp only [List.length_cons] at h h'
        by_cases h1 : takeCI w (c :: cs) ≠ none
        · rw [if_pos h1, if_pos h1]
          exact ih fuel' _ (by omega) (by omega)
        · rw [if_neg h1, if_neg h1]
          by_cases h2 : (cs.isEmpty && (Char.toLower c = suf : Bool)) = true
          · rw [if_pos h2, if_pos h2]
          · rw [if_neg h2, if_neg h2, ih fuel' cs (by omega) (by omega)]

/-- The scale-token removal satisfies the intended (non-structural)
recurrence: consume a case-insensitive occurrence of the word, or drop a
final abbreviation letter, or keep the character and continue. -/
theorem removeScaleTokens_cons (w : List Char) (suf : Char) (c : Char) (cs : List Char) :
    removeScaleTokens w suf (c :: cs) =
      (if takeCI w (c :: cs) ≠ none then removeScaleTokens w suf (cs.drop (w.length - 1))
       else if cs.isEmpty && Char.toLower c = suf then []
       else c :: removeScaleTokens w suf cs) := by
  unfold removeScaleTokens
  simp only [List.length_cons, goRemove]
  have hdrop : (cs.drop (w.length - 1)).length ≤ cs.length := by
    rw [List.length_drop]
    omega
  split_ifs with h1 h2
  · exact goRemove_congr w suf _ _ _ (by omega) (by omega)
  · rfl
  · rfl

/-! Membership in the extractor's output implies the push-guard held. -/

theorem keepValue_of_mem_lineFacts {i : Nat} {line : String} {f : NumericalFact}
    (h : f ∈ lineFacts i line) : keepValue f.value = true := by
  unfold lineFacts at h
  rw [List.mem_filterMap] at h
  obtain ⟨m, _, hm⟩ := h
  simp only at hm
  split at hm
  · next hk =>
    obtain rfl := Option.some.inj hm
    exact hk
  · exact absurd hm (by simp)

theorem keepValue_of_mem_cellFacts {ti ri ci : Nat} {table : Table} {row : List String}
    {cell : String} {f : NumericalFact} (h : f ∈ cellFacts ti ri ci table row cell) :
    keepValue f.value = true := by
  unfold cellFacts at h
  split at h
  · simp at h
  · rw [List.mem_filterMap] at h
    obtain ⟨m, _, hm⟩ := h
    simp only at hm
    split at hm
    · next hk =>
      obtain rfl := Option.some.inj hm
      exact hk
    · exact absurd hm (by simp)

theorem keepValue_of_mem_extract {text : String} {tables : List Table} {f : NumericalFact}
    (h : f ∈ extractNumericalData text tables) : keepValue f.value = true := by
  unfold extractNumericalData at h
  rw [List.mem_append] at h
  rcases h with h | h
  · unfold textFacts at h
    rw [List.mem_flatMap] at h
    obtain ⟨p, _, hp⟩ := h
    exact keepValue_of_mem_lineFacts hp
  · unfold tableFacts at h
    rw [List.mem_flatMap] at h
    obtain ⟨tp, _, h⟩ := h
    rw [List.mem_flatMap] at h
    obtain ⟨rp, _, h⟩ := h
    rw [List.mem_flatMap] at h
    obtain ⟨cp, _, h⟩ := h
    exact keepValue_of_mem_cellFacts h

/-! The claims. -/

/-- C1, counterexample: on the spec's own running example (two documents,
one 2024-revenue fact each, values 150000 and 145000, AI pass returning
nothing), the matcher emits three inconsistency records, not the single
record the claim asserts: the pair qualifies under `2024_revenue`,
`2024_any` and `any_revenue`, and the dedup step compares field names,
which differ between the three keys. -/
theorem c1_single_record_refuted :
    (performCrossDocumentValidation [reportA, reportB] 0 (some [])).length = 3 := by
  with_unfolding_all rfl

/-- C1, amended: the running example yields exactly three records, one per
qualifying derived key, each carrying both `(document, value, location)`
triples; the weaker-key records survive because the dedup of lines
555-560 suppresses a record only when both the field name and the sorted
value multiset agree, and the three field names `2024 Revenue`,
`2024 Any`, `Any Revenue` are pairwise distinct. -/
theorem c1_three_records :
    performCrossDocumentValidation [reportA, reportB] 0 (some []) =
      [{ id := "cross-2024_revenue-0"
         fieldName := "2024 Revenue"
         validationType := "cross_reference"
         isConsistent := false
         errorMessage := "Different values found for \"2024 Revenue\" across documents. Expected all documents to have the same value."
         values := [⟨"Report A", JSNum.num 150000, "Line 1"⟩,
                    ⟨"Report B", JSNum.num 145000, "Line 1"⟩] },
       { id := "cross-2024_any-0"
         fieldName := "2024 Any"
         validationType := "cross_reference"
         isConsistent := false
         errorMessage := "Different values found for \"2024 Any\" across documents. Expected all documents to have the same value."
         values := [⟨"Report A", JSNum.num 150000, "Line 1"⟩,
                    ⟨"Report B", JSNum.num 145000, "Line 1"⟩] },
       { id := "cross-any_revenue-0"
         fieldName := "Any Revenue"
         validationType := "cross_reference"
         isConsistent := false
         errorMessage := "Different values found for \"Any Revenue\" across documents. Expected all documents to have the same value."
         values := [⟨"Report A", JSNum.num 150000, "Line 1"⟩,
                    ⟨"Report B", JSNum.num 145000, "Line 1"⟩] }] := by
  with_unfolding_all rfl

/-- C2: the claim says a textual currency marker (`USD`, `EUR`, `GBP`) is
stripped like `$`, and the spec's normalization step 1 says the currency
symbol is stripped from the digit portion.  The regex deliberately
recognises those markers, but the cleaning step removes only `$`, commas
and whitespace, so `parseFloat("USD1234")` is `NaN` and the fact is
silently discarded — the marker even swallows the digits it precedes.
The same line with `$` yields the 1234 fact, witnessing the intent. -/
theorem c2_usd_marker_dropped :
    extractNumericalData "Revenue: USD 1,234" [] = [] ∧
      extractNumericalData "Revenue: $1,234" [] =
        [⟨JSNum.num 1234, "revenue: Revenue: $1,234", "Line 1"⟩] :=
  ⟨by with_unfolding_all rfl, by with_unfolding_all rfl⟩

/-- C3, counterexample: the matcher is not a deterministic I/O-free
transformation.  Its record ids embed the clock reading, so two
invocations on identical documents differ; and the result depends on the
external AI collaborator: a thrown AI call (`none`) discards even the
rule-based findings, while a successful empty response returns them. -/
theorem c3_determinism_refuted :
    performCrossDocumentValidation [reportA, reportB] 0 (some []) ≠
        performCrossDocumentValidation [reportA, reportB] 1 (some []) ∧
      performCrossDocumentValidation [reportA, reportB] 0 none = [] ∧
      performCrossDocumentValidation [reportA, reportB] 0 (some []) ≠ [] :=
  ⟨of_decide_eq_true (by with_unfolding_all rfl), by with_unfolding_all rfl,
    of_decide_eq_true (by with_unfolding_all rfl)⟩

theorem sameIssue_congr {a a' b b' : CrossRecord} (ha : stripRecordId a = stripRecordId a')
    (hb : stripRecordId b = stripRecordId b') : sameIssue a b = sameIssue a' b' := by
  have h1 := congrArg CrossRecord.fieldName ha
  have h2 := congrArg CrossRecord.values ha
  have h3 := congrArg CrossRecord.fieldName hb
  have h4 := congrArg CrossRecord.values hb
  simp only [stripRecordId] at h1 h2 h3 h4
  unfold sameIssue
  rw [h1, h2, h3, h4]

theorem any_sameIssue_congr :
    ∀ {seen seen' : List CrossRecord} {r r' : CrossRecord},
      seen.map stripRecordId = seen'.map stripRecordId →
      stripRecordId r = stripRecordId r' →
      (seen.any fun s => sameIssue s r) = (seen'.any fun s => sameIssue s r') := by
  intro seen
  induction seen with
  | nil =>
    intro seen' r r' h _
    cases seen' with
    | nil => rfl
    | cons => simp at h
  | cons s ss ih =>
    intro seen' r r' h hr
    cases seen' with
    | nil => simp at h
    | cons t ts =>
      simp only [List.map_cons, List.cons.injEq] at h
      obtain ⟨h1, h2⟩ := h
      simp only [List.any_cons]
      rw [sameIssue_congr h1 hr, ih h2 hr]

theorem keepFirstAux_congr :
    ∀ (l l' seen seen' : List CrossRecord),
      l.map stripRecordId = l'.map stripRecordId →
      seen.map stripRecordId = seen'.map stripRecordId →
      (keepFirstAux seen l).map stripRecordId = (keepFirstAux seen' l').map stripRecordId := by
  intro l
  induction l with
  | nil =>
    intro l' seen seen' h _
    cases l' with
    | nil => rfl
    | cons => simp at h
  | cons r rs ih =>
    intro l' seen seen' h hs
    cases l' with
    | nil => simp at h
    | cons r' rs' =>
      simp only [List.map_cons, List.cons.injEq] at h
      obtain ⟨h1, h2⟩ := h
      simp only [keepFirstAux]
      rw [any_sameIssue_congr hs h1]
      have happ : (seen ++ [r]).map stripRecordId = (seen' ++ [r']).map stripRecordId := by
        simp [hs, h1]
      by_cases hany : (seen'.any fun s => sameIssue s r') = true
      · rw [if_pos hany, if_pos hany]
        exact ih rs' (seen ++ [r]) (seen' ++ [r']) h2 happ
      · rw [if_neg hany, if_neg hany]
        simp only [List.map_cons]
        rw [h1, ih rs' (seen ++ [r]) (seen' ++ [r']) h2 happ]

theorem recordForKey_strip (dms : List (String × MetricIndex)) (now now' : Nat) (key : String) :
    (recordForKey dms now key).map stripRecordId =
      (recordForKey dms now' key).map stripRecordId := by
  unfold recordForKey
  split_ifs <;> rfl

theorem ruleInconsistencies_strip (documents : List DocumentFactSet) (now now' : Nat) :
    (ruleInconsistencies documents now).map stripRecordId =
      (ruleInconsistencies documents now').map stripRecordId := by
  unfold ruleInconsistencies
  induction allKeysOf (documentMetrics documents) with
  | nil => rfl
  | cons k ks ih =>
    simp only [List.flatMap_cons, List.map_append]
    rw [recordForKey_strip _ now now' k, ih]

/-- C3, amended: for fixed documents and a fixed collaborator response,
the matcher is deterministic up to the clock-derived `id` fields: mapping
the id away, two invocations at different clock readings agree on every
emitted record (field name, message, flag and value triples alike). -/
theorem c3_deterministic_up_to_ids (documents : List DocumentFactSet) (now now' : Nat)
    (ai : Option (List CrossRecord)) :
    (performCrossDocumentValidation documents now ai).map stripRecordId =
      (performCrossDocumentValidation documents now' ai).map stripRecordId := by
  unfold performCrossDocumentValidation
  split
  · rfl
  · cases ai with
    | none => rfl
    | some l =>
      unfold dedupResults
      apply keepFirstAux_congr
      · simp only [List.map_append]
        rw [ruleInconsistencies_strip documents now now']
      · rfl

/-! Every key the matcher indexes is either a derived key of a known
shape or a raw (lowercase/digit/whitespace) fallback key. -/

theorem yearScan_shape :
    ∀ (l y : List Char), yearScan l = some y →
      ∃ c d, y = ['2', '0', c, d] ∧ (c = '1' ∨ c = '2') ∧ d.isDigit = true := by
  intro l
  induction l with
  | nil => intro y h; simp [yearScan] at h
  | cons c0 cs ih =>
    intro y h
    rcases cs with _ | ⟨c1, _ | ⟨c2, _ | ⟨c3, rest⟩⟩⟩
    · simp [yearScan] at h
    · exact ih y h
    · exact ih y h
    · simp only [yearScan] at h
      split at h
      · next hcond =>
        simp only [Bool.and_eq_true, decide_eq_true_eq, Bool.or_eq_true] at hcond
        obtain ⟨⟨⟨h0, h1⟩, h2⟩, h3⟩ := hcond
        subst h0; subst h1
        refine ⟨c2, c3, ?_, h2, h3⟩
        exact (Option.some.inj h).symm
      · exact ih y h

theorem matcherMetricOf_cases (s : String) :
    matcherMetricOf s = "unknown" ∨ matcherMetricOf s ∈ metricNames := by
  unfold matcherMetricOf
  split_ifs <;> simp [metricNames]

theorem mem_metricNames_ne_unknown : ∀ m ∈ metricNames, m ≠ "unknown" := by decide

theorem mem_of_mem_trimChars {c : Char} {l : List Char} (h : c ∈ trimChars l) : c ∈ l := by
  unfold trimChars at h
  rw [List.mem_reverse] at h
  have h1 : c ∈ (l.dropWhile isJSSpace).reverse := (List.dropWhile_sublist _).subset h
  rw [List.mem_reverse] at h1
  exact (List.dropWhile_sublist _).subset h1

theorem isRawKey_rawKeyOf (context : String) : IsRawKey (rawKeyOf context) := by
  intro c hc
  have h1 : c ∈ context.data.filter isRawKeyChar := mem_of_mem_trimChars hc
  exact (List.mem_filter.mp h1).2

theorem isYearStr_of_yearOf {cw y : String} (h : yearOf cw = some y) : IsYearStr y := by
  unfold yearOf at h
  cases hs : yearScan cw.data with
  | none => rw [hs] at h; simp at h
  | some l =>
    rw [hs] at h
    simp at h
    obtain ⟨c, d, hl, hc, hd⟩ := yearScan_shape _ _ hs
    exact ⟨c, d, by rw [← h, hl], hc, hd⟩

theorem producedKey_of_mem_factKeys {ctx k : String} (h : k ∈ factKeys ctx) : ProducedKey k := by
  simp only [factKeys] at h
  rcases matcherMetricOf_cases (toLowerStr ctx) with hm | hm
  · cases hy : yearOf (toLowerStr ctx) with
    | none =>
      rw [hy, hm] at h
      simp at h
      exact Or.inr (h ▸ isRawKey_rawKeyOf _)
    | some y =>
      rw [hy, hm] at h
      simp at h
      rcases h with h | h
      · exact Or.inl (Or.inr (Or.inl ⟨y, isYearStr_of_yearOf hy, h⟩))
      · exact Or.inr (h ▸ isRawKey_rawKeyOf _)
  · have hne : matcherMetricOf (toLowerStr ctx) ≠ "unknown" :=
      mem_metricNames_ne_unknown _ hm
    cases hy : yearOf (toLowerStr ctx) with
    | none =>
      rw [hy] at h
      simp only [List.nil_append, if_pos hne, List.mem_append, List.mem_singleton,
        List.mem_cons, List.not_mem_nil, or_false] at h
      rcases h with h | h
      · exact Or.inl (Or.inr (Or.inr ⟨_, hm, h⟩))
      · exact Or.inr (h ▸ isRawKey_rawKeyOf _)
    | some y =>
      rw [hy] at h
      simp only [if_pos hne, List.mem_append, List.mem_singleton, List.mem_cons,
        List.not_mem_nil, or_false] at h
      rcases h with ((h | h) | h) | h
      · exact Or.inl (Or.inl ⟨y, _, isYearStr_of_yearOf hy, hm, h⟩)
      · exact Or.inl (Or.inr (Or.inl ⟨y, isYearStr_of_yearOf hy, h⟩))
      · exact Or.inl (Or.inr (Or.inr ⟨_, hm, h⟩))
      · exact Or.inr (h ▸ isRawKey_rawKeyOf _)

theorem indexPush_keys {m : MetricIndex} {k : String} {v : JSNum × String} {key : String}
    (h : key ∈ (indexPush m k v).map Prod.fst) : key ∈ m.map Prod.fst ∨ key = k := by
  unfold indexPush at h
  split at h
  · left
    rw [List.map_map] at h
    have heq : m.map (Prod.fst ∘ fun e => if e.1 = k then (e.1, e.2 ++ [v]) else e) =
        m.map Prod.fst := by
      apply List.map_congr_left
      intro e _
      by_cases he : e.1 = k <;> simp [he]
    rw [heq] at h
    exact h
  · rw [List.map_append] at h
    rcases List.mem_append.mp h with h | h
    · exact Or.inl h
    · right
      simpa using h

theorem foldKeys_pred (P : String → Prop) (v : JSNum × String) :
    ∀ (ks : List String) (m : MetricIndex),
      (∀ x ∈ ks, P x) → (∀ x ∈ m.map Prod.fst, P x) →
      ∀ key ∈ (ks.foldl (fun m2 key2 => indexPush m2 key2 v) m).map Prod.fst, P key := by
  intro ks
  induction ks with
  | nil => intro m _ hm key hk; exact hm key hk
  | cons k ks ih =>
    intro m hks hm key hk
    simp only [List.foldl_cons] at hk
    refine ih (indexPush m k v) (fun x hx => hks x (List.mem_cons_of_mem _ hx)) ?_ key hk
    intro x hx
    rcases indexPush_keys hx with hx | hx
    · exact hm x hx
    · exact hx ▸ hks k (List.mem_cons_self _ _)

theorem buildMetrics_keys_pred (P : String → Prop) (facts : List NumericalFact)
    (hP : ∀ f ∈ facts, ∀ x ∈ factKeys f.context, P x) :
    ∀ key ∈ (buildMetrics facts).map Prod.fst, P key := by
  suffices hgen : ∀ (fs : List NumericalFact) (m : MetricIndex),
      (∀ f ∈ fs, ∀ x ∈ factKeys f.context, P x) → (∀ x ∈ m.map Prod.fst, P x) →
      ∀ key ∈ (fs.foldl
        (fun m item => (factKeys item.context).foldl
          (fun m2 key2 => indexPush m2 key2 (item.value, item.location)) m) m).map Prod.fst,
        P key by
    exact hgen facts [] hP (by simp)
  intro fs
  induction fs with
  | nil => intro m _ hm; exact hm
  | cons f fs ih =>
    intro m hfs hm
    simp only [List.foldl_cons]
    refine ih _ (fun g hg => hfs g (List.mem_cons_of_mem _ hg)) ?_
    exact foldKeys_pred P _ (factKeys f.context) m
      (fun x hx => hfs f (List.mem_cons_self _ _) x hx) hm

theorem dedupFirst_sub {α : Type} [DecidableEq α] :
    ∀ (l seen : List α) (x : α),
      x ∈ l.foldl (fun s y => if y ∈ s then s else s ++ [y]) seen → x ∈ seen ∨ x ∈ l := by
  intro l
  induction l with
  | nil => intro seen x h; exact Or.inl h
  | cons y ys ih =>
    intro seen x h
    simp only [List.foldl_cons] at h
    rcases ih _ x h with h1 | h1
    · by_cases hy : y ∈ seen
      · rw [if_pos hy] at h1
        exact Or.inl h1
      · rw [if_neg hy] at h1
        rcases List.mem_append.mp h1 with h2 | h2
        · exact Or.inl h2
        · exact Or.inr (by simpa using Or.inl (by simpa using h2))
    · exact Or.inr (List.mem_cons_of_mem _ h1)

theorem dedupFirst_nodup {α : Type} [DecidableEq α] (l : List α) : (dedupFirst l).Nodup := by
  suffices hgen : ∀ (l seen : List α), seen.Nodup →
      (l.foldl (fun s y => if y ∈ s then s else s ++ [y]) seen).Nodup by
    exact hgen l [] List.nodup_nil
  intro l
  induction l with
  | nil => intro seen h; exact h
  | cons y ys ih =>
    intro seen h
    simp only [List.foldl_cons]
    apply ih
    by_cases hy : y ∈ seen
    · rw [if_pos hy]; exact h
    · rw [if_neg hy]
      simp [List.nodup_append, h, hy]

theorem mem_dedupFirst {α : Type} [DecidableEq α] {l : List α} {x : α}
    (h : x ∈ dedupFirst l) : x ∈ l := by
  rcases dedupFirst_sub l [] x h with h1 | h1
  · simp at h1
  · exact h1

theorem allKeysOf_nodup (dms : List (String × MetricIndex)) : (allKeysOf dms).Nodup :=
  dedupFirst_nodup _

theorem producedKey_allKeys {documents : List DocumentFactSet} {key : String}
    (h : key ∈ allKeysOf (documentMetrics documents)) : ProducedKey key := by
  unfold allKeysOf at h
  have h1 := mem_dedupFirst h
  rw [List.mem_flatMap] at h1
  obtain ⟨dm, hdm, hk⟩ := h1
  unfold documentMetrics at hdm
  rw [List.mem_map] at hdm
  obtain ⟨doc, _, hdoc⟩ := hdm
  subst hdoc
  exact buildMetrics_keys_pred ProducedKey doc.numericalData
    (fun f _ x hx => producedKey_of_mem_factKeys hx) key hk

/-! Character-level facts used to separate the field-name renderings of
distinct keys. -/

theorem char_toNat_ofNat_valid {n : Nat} (h : n.isValidChar) : (Char.ofNat n).toNat = n := by
  unfold Char.ofNat
  rw [dif_pos h]
  simp [Char.ofNatAux, Char.toNat, UInt32.toNat]

theorem toUpper_toNat_of_lower {c : Char} (h : 97 ≤ c.toNat ∧ c.toNat ≤ 122) :
    c.toUpper.toNat = c.toNat - 32 := by
  unfold Char.toUpper
  rw [if_pos ⟨h.1, h.2⟩]
  exact char_toNat_ofNat_valid (Or.inl (by omega))

theorem toUpper_eq_self_of_not_lower {c : Char} (h : ¬(97 ≤ c.toNat ∧ c.toNat ≤ 122)) :
    c.toUpper = c := by
  unfold Char.toUpper
  rw [if_neg h]

theorem char_toNat_inj {a b : Char} (h : a.toNat = b.toNat) : a = b := by
  apply Char.ext
  apply UInt32.ext
  exact h

theorem isRawKeyChar_ranges {c : Char} (h : isRawKeyChar c = true) :
    (97 ≤ c.toNat ∧ c.toNat ≤ 122) ∨ (48 ≤ c.toNat ∧ c.toNat ≤ 57) ∨
      c.toNat = 32 ∨ c.toNat = 9 ∨ c.toNat = 10 ∨ c.toNat = 11 ∨ c.toNat = 12 ∨
      c.toNat = 13 := by
  unfold isRawKeyChar isJSSpace at h
  simp only [Bool.or_eq_true, decide_eq_true_eq] at h
  rcases h with (h | h) | h
  · left
    simp [Char.isLower] at h
    exact ⟨h.1, h.2⟩
  · right; left
    simp [Char.isDigit] at h
    exact ⟨h.1, h.2⟩
  · right; right
    rcases h with ((((h | h) | h) | h) | h) | h <;> subst h <;> decide

theorem isRawKeyChar_not_upper {c : Char} (h : isRawKeyChar c = true) :
    ¬(65 ≤ c.toNat ∧ c.toNat ≤ 90) := by
  rcases isRawKeyChar_ranges h with h1 | h1 | h1 | h1 | h1 | h1 | h1 | h1 <;> omega

theorem toUpper_inj_raw {a b : Char} (ha : isRawKeyChar a = true) (hb : isRawKeyChar b = true)
    (h : a.toUpper = b.toUpper) : a = b := by
  by_cases la : 97 ≤ a.toNat ∧ a.toNat ≤ 122
  · by_cases lb : 97 ≤ b.toNat ∧ b.toNat ≤ 122
    · have e1 := toUpper_toNat_of_lower la
      have e2 := toUpper_toNat_of_lower lb
      have e3 := congrArg Char.toNat h
      apply char_toNat_inj
      omega
    · exfalso
      have e1 := toUpper_toNat_of_lower la
      rw [toUpper_eq_self_of_not_lower lb] at h
      have e3 := congrArg Char.toNat h
      rcases isRawKeyChar_ranges hb with h1 | h1 | h1 | h1 | h1 | h1 | h1 | h1 <;> omega
  · by_cases lb : 97 ≤ b.toNat ∧ b.toNat ≤ 122
    · exfalso
      have e2 := toUpper_toNat_of_lower lb
      rw [toUpper_eq_self_of_not_lower la] at h
      have e3 := congrArg Char.toNat h
      rcases isRawKeyChar_ranges ha with h1 | h1 | h1 | h1 | h1 | h1 | h1 | h1 <;> omega
    · rw [toUpper_eq_self_of_not_lower la, toUpper_eq_self_of_not_lower lb] at h
      exact h

theorem ne_underscore_of_isDigit {d : Char} (h : d.isDigit = true) : d ≠ '_' := by
  intro heq
  subst heq
  exact absurd h (by decide)

/-! Rendering of the derived and raw key shapes. -/

theorem replaceFirstUnderscore_append {pre post : List Char} (h : '_' ∉ pre) :
    replaceFirstUnderscore (pre ++ '_' :: post) = pre ++ ' ' :: post := by
  induction pre with
  | nil => simp [replaceFirstUnderscore]
  | cons c cs ih =>
    have hc : c ≠ '_' := fun hc => h (by simp [hc])
    have ih2 := ih (fun hm => h (List.mem_cons_of_mem _ hm))
    show replaceFirstUnderscore (c :: (cs ++ '_' :: post)) = c :: (cs ++ ' ' :: post)
    simp only [replaceFirstUnderscore, if_neg hc]
    exact congrArg (c :: ·) ih2

theorem titleAux_year {c d : Char} (hc : c = '1' ∨ c = '2') (w : List Char) :
    titleAux false (['2', '0', c, d, ' '] ++ w) = ['2', '0', c, d, ' '] ++ titleAux false w := by
  have h2 : isWordChar '2' = true := by decide
  have h0 : isWordChar '0' = true := by decide
  have h1 : isWordChar '1' = true := by decide
  have hsp : isWordChar ' ' = false := by decide
  have hu : Char.toUpper '2' = '2' := by decide
  rcases hc with rfl | rfl <;> simp [titleAux, h2, h0, h1, hsp, hu]

theorem titleAux_any (w : List Char) :
    titleAux false (['a', 'n', 'y', ' '] ++ w) = ['A', 'n', 'y', ' '] ++ titleAux false w := by
  have ha : isWordChar 'a' = true := by decide
  have hn : isWordChar 'n' = true := by decide
  have hy : isWordChar 'y' = true := by decide
  have hsp : isWordChar ' ' = false := by decide
  have hu : Char.toUpper 'a' = 'A' := by decide
  simp [titleAux, ha, hn, hy, hsp, hu]

theorem contains_underscore_true {l : List Char} (h : '_' ∈ l) : l.contains '_' = true := by
  simp only [List.contains, List.elem_eq_mem, decide_eq_true_eq]
  exact h

theorem contains_underscore_false {l : List Char} (h : '_' ∉ l) : l.contains '_' = false := by
  simp only [List.contains, List.elem_eq_mem, decide_eq_false_iff_not]
  exact h

theorem not_underscore_mem_year {c d : Char} (hc : c = '1' ∨ c = '2') (hd : d.isDigit = true) :
    '_' ∉ (['2', '0', c, d] : List Char) := by
  intro hmem
  simp only [List.mem_cons, List.not_mem_nil, or_false] at hmem
  rcases hmem with h | h | h | h
  · exact absurd h (by decide)
  · exact absurd h (by decide)
  · rcases hc with rfl | rfl <;> exact absurd h (by decide)
  · exact (ne_underscore_of_isDigit hd) h.symm

theorem renderFieldName_year_metric {c d : Char} (hc : c = '1' ∨ c = '2')
    (hd : d.isDigit = true) (m : String) :
    renderFieldName ((⟨['2', '0', c, d]⟩ : String) ++ "_" ++ m) =
      ⟨['2', '0', c, d, ' '] ++ titleAux false m.data⟩ := by
  have hdata : ((⟨['2', '0', c, d]⟩ : String) ++ "_" ++ m).data =
      ['2', '0', c, d] ++ '_' :: m.data := by
    simp [String.data_append]
  have hcont : ((⟨['2', '0', c, d]⟩ : String) ++ "_" ++ m).data.contains '_' = true := by
    rw [hdata]
    exact contains_underscore_true (by simp)
  unfold renderFieldName
  rw [hcont]
  simp only [if_true]
  rw [hdata, replaceFirstUnderscore_append (not_underscore_mem_year hc hd)]
  have hshape : (['2', '0', c, d] : List Char) ++ ' ' :: m.data =
      ['2', '0', c, d, ' '] ++ m.data := rfl
  rw [hshape, titleAux_year hc]

theorem renderFieldName_year_any {c d : Char} (hc : c = '1' ∨ c = '2')
    (hd : d.isDigit = true) :
    renderFieldName ((⟨['2', '0', c, d]⟩ : String) ++ "_any") =
      ⟨['2', '0', c, d, ' ', 'A', 'n', 'y']⟩ := by
  have hdata : ((⟨['2', '0', c, d]⟩ : String) ++ "_any").data =
      ['2', '0', c, d] ++ '_' :: ['a', 'n', 'y'] := by
    simp [String.data_append]
  have hcont : ((⟨['2', '0', c, d]⟩ : String) ++ "_any").data.contains '_' = true := by
    rw [hdata]
    exact contains_underscore_true (by simp)
  unfold renderFieldName
  rw [hcont]
  simp only [if_true]
  rw [hdata, replaceFirstUnderscore_append (not_underscore_mem_year hc hd)]
  have hshape : (['2', '0', c, d] : List Char) ++ ' ' :: ['a', 'n', 'y'] =
      ['2', '0', c, d, ' '] ++ ['a', 'n', 'y'] := rfl
  rw [hshape, titleAux_year hc]
  have : titleAux false ['a', 'n', 'y'] = ['A', 'n', 'y'] := by decide
  rw [this]
  rfl

theorem renderFieldName_any_metric (m : String) :
    renderFieldName ("any_" ++ m) = ⟨['A', 'n', 'y', ' '] ++ titleAux false m.data⟩ := by
  have hdata : ("any_" ++ m).data = ['a', 'n', 'y'] ++ '_' :: m.data := by
    simp [String.data_append]
  have hcont : ("any_" ++ m).data.contains '_' = true := by
    rw [hdata]
    exact contains_underscore_true (by simp)
  unfold renderFieldName
  rw [hcont]
  simp only [if_true]
  rw [hdata, replaceFirstUnderscore_append (by decide)]
  have hshape : (['a', 'n', 'y'] : List Char) ++ ' ' :: m.data =
      ['a', 'n', 'y', ' '] ++ m.data := rfl
  rw [hshape, titleAux_any]

theorem renderFieldName_raw_nil {k : String} (hk : IsRawKey k) (hd : k.data = []) :
    (renderFieldName k).data = [] := by
  have hcont : k.data.contains '_' = false :=
    contains_underscore_false (fun hm => absurd (hk _ hm) (by decide))
  unfold renderFieldName
  rw [hcont]
  simp only [Bool.false_eq_true, if_false]
  rw [hd]

theorem renderFieldName_raw_cons {k : String} {c : Char} {cs : List Char} (hk : IsRawKey k)
    (hd : k.data = c :: cs) : (renderFieldName k).data = c.toUpper :: cs := by
  have hcont : k.data.contains '_' = false :=
    contains_underscore_false (fun hm => absurd (hk _ hm) (by decide))
  unfold renderFieldName
  rw [hcont]
  simp only [Bool.false_eq_true, if_false]
  rw [hd]

theorem string_data_inj {s t : String} (h : s.data = t.data) : s = t := by
  cases s
  cases t
  exact congrArg String.mk h

theorem string_mk_inj {l1 l2 : List Char} (h : (⟨l1⟩ : String) = (⟨l2⟩ : String)) : l1 = l2 :=
  congrArg String.data h

theorem titleAux_metric_inj :
    ∀ m1 ∈ metricNames, ∀ m2 ∈ metricNames,
      titleAux false m1.data = titleAux false m2.data → m1 = m2 := by decide

theorem titleAux_metric_ne_any :
    ∀ m ∈ metricNames, titleAux false m.data ≠ ['A', 'n', 'y'] := by decide

theorem titleAux_metric_head :
    ∀ m ∈ metricNames, titleAux false m.data ≠ [] ∧
      65 ≤ ((titleAux false m.data).headD 'x').toNat ∧
      ((titleAux false m.data).headD 'x').toNat ≤ 90 := by decide

theorem raw_render_tail {k : String} (hk : IsRawKey k) (i : Nat) (u : Char)
    (h : (renderFieldName k).data.get? (i + 1) = some u) : isRawKeyChar u = true := by
  cases hd : k.data with
  | nil =>
    rw [renderFieldName_raw_nil hk hd] at h
    simp at h
  | cons c cs =>
    rw [renderFieldName_raw_cons hk hd] at h
    rw [List.get?_cons_succ] at h
    have hu : u ∈ cs := List.get?_mem h
    exact hk u (by rw [hd]; exact List.mem_cons_of_mem _ hu)

theorem derived_render_upper {k : String} (hk : IsDerivedKey k) :
    ∃ i u, (renderFieldName k).data.get? (i + 1) = some u ∧ 65 ≤ u.toNat ∧ u.toNat ≤ 90 := by
  rcases hk with ⟨y, m, hy, hm, rfl⟩ | ⟨y, hy, rfl⟩ | ⟨m, hm, rfl⟩
  · obtain ⟨c, d, rfl, hc, hd⟩ := hy
    rw [renderFieldName_year_metric hc hd]
    obtain ⟨hne, hu1, hu2⟩ := titleAux_metric_head m hm
    cases ht : titleAux false m.data with
    | nil => exact absurd ht hne
    | cons u rest =>
      rw [ht] at hu1 hu2
      simp only [List.headD_cons] at hu1 hu2
      exact ⟨4, u, rfl, hu1, hu2⟩
  · obtain ⟨c, d, rfl, hc, hd⟩ := hy
    rw [renderFieldName_year_any hc hd]
    exact ⟨4, 'A', rfl, by decide, by decide⟩
  · rw [renderFieldName_any_metric]
    obtain ⟨hne, hu1, hu2⟩ := titleAux_metric_head m hm
    cases ht : titleAux false m.data with
    | nil => exact absurd ht hne
    | cons u rest =>
      rw [ht] at hu1 hu2
      simp only [List.headD_cons] at hu1 hu2
      exact ⟨3, u, rfl, hu1, hu2⟩

theorem derived_ne_raw {k1 k2 : String} (h1 : IsDerivedKey k1) (h2 : IsRawKey k2) :
    renderFieldName k1 ≠ renderFieldName k2 := by
  intro h
  obtain ⟨i, u, hg, hu1, hu2⟩ := derived_render_upper h1
  rw [h] at hg
  exact isRawKeyChar_not_upper (raw_render_tail h2 i u hg) ⟨hu1, hu2⟩

theorem renderFieldName_raw_inj {k1 k2 : String} (h1 : IsRawKey k1) (h2 : IsRawKey k2)
    (h : renderFieldName k1 = renderFieldName k2) : k1 = k2 := by
  have hd := congrArg String.data h
  cases hk1 : k1.data with
  | nil =>
    cases hk2 : k2.data with
    | nil => exact string_data_inj (hk1.trans hk2.symm)
    | cons c cs =>
      rw [renderFieldName_raw_nil h1 hk1, renderFieldName_raw_cons h2 hk2] at hd
      exact absurd hd (by simp)
  | cons c1 cs1 =>
    cases hk2 : k2.data with
    | nil =>
      rw [renderFieldName_raw_cons h1 hk1, renderFieldName_raw_nil h2 hk2] at hd
      exact absurd hd (by simp)
    | cons c2 cs2 =>
      rw [renderFieldName_raw_cons h1 hk1, renderFieldName_raw_cons h2 hk2] at hd
      injection hd with hu hcs
      have hc : c1 = c2 :=
        toUpper_inj_raw (h1 c1 (by rw [hk1]; exact List.mem_cons_self _ _))
          (h2 c2 (by rw [hk2]; exact List.mem_cons_self _ _)) hu
      exact string_data_inj (by rw [hk1, hk2, hc, hcs])

theorem derived_inj {k1 k2 : String} (h1 : IsDerivedKey k1) (h2 : IsDerivedKey k2)
    (h : renderFieldName k1 = renderFieldName k2) : k1 = k2 := by
  rcases h1 with ⟨y1, m1, hy1, hm1, rfl⟩ | ⟨y1, hy1, rfl⟩ | ⟨m1, hm1, rfl⟩ <;>
    rcases h2 with ⟨y2, m2, hy2, hm2, rfl⟩ | ⟨y2, hy2, rfl⟩ | ⟨m2, hm2, rfl⟩
  · obtain ⟨c1, d1, rfl, hc1, hd1⟩ := hy1
    obtain ⟨c2, d2, rfl, hc2, hd2⟩ := hy2
    rw [renderFieldName_year_metric hc1 hd1, renderFieldName_year_metric hc2 hd2] at h
    have hl := string_mk_inj h
    simp only [List.cons_append, List.nil_append, List.cons.injEq, true_and] at hl
    obtain ⟨hcc, hdd, hTT⟩ := hl
    rw [hcc, hdd, titleAux_metric_inj m1 hm1 m2 hm2 hTT]
  · obtain ⟨c1, d1, rfl, hc1, hd1⟩ := hy1
    obtain ⟨c2, d2, rfl, hc2, hd2⟩ := hy2
    rw [renderFieldName_year_metric hc1 hd1, renderFieldName_year_any hc2 hd2] at h
    have hl := string_mk_inj h
    simp only [List.cons_append, List.nil_append, List.cons.injEq, true_and] at hl
    exact absurd hl.2.2 (titleAux_metric_ne_any m1 hm1)
  · obtain ⟨c1, d1, rfl, hc1, hd1⟩ := hy1
    rw [renderFieldName_year_metric hc1 hd1, renderFieldName_any_metric] at h
    have hl := string_mk_inj h
    simp only [List.cons_append, List.nil_append, List.cons.injEq] at hl
    exact absurd hl.1 (by decide)
  · obtain ⟨c1, d1, rfl, hc1, hd1⟩ := hy1
    obtain ⟨c2, d2, rfl, hc2, hd2⟩ := hy2
    rw [renderFieldName_year_any hc1 hd1, renderFieldName_year_metric hc2 hd2] at h
    have hl := string_mk_inj h
    simp only [List.cons_append, List.nil_append, List.cons.injEq, true_and] at hl
    exact absurd hl.2.2.symm (titleAux_metric_ne_any m2 hm2)
  · obtain ⟨c1, d1, rfl, hc1, hd1⟩ := hy1
    obtain ⟨c2, d2, rfl, hc2, hd2⟩ := hy2
    rw [renderFieldName_year_any hc1 hd1, renderFieldName_year_any hc2 hd2] at h
    have hl := string_mk_inj h
    simp only [List.cons.injEq, true_and, and_true] at hl
    rw [hl.1, hl.2]
  · obtain ⟨c1, d1, rfl, hc1, hd1⟩ := hy1
    rw [renderFieldName_year_any hc1 hd1, renderFieldName_any_metric] at h
    have hl := string_mk_inj h
    simp only [List.cons_append, List.nil_append, List.cons.injEq] at hl
    exact absurd hl.1 (by decide)
  · obtain ⟨c2, d2, rfl, hc2, hd2⟩ := hy2
    rw [renderFieldName_any_metric, renderFieldName_year_metric hc2 hd2] at h
    have hl := string_mk_inj h
    simp only [List.cons_append, List.nil_append, List.cons.injEq] at hl
    exact absurd hl.1 (by decide)
  · obtain ⟨c2, d2, rfl, hc2, hd2⟩ := hy2
    rw [renderFieldName_any_metric, renderFieldName_year_any hc2 hd2] at h
    have hl := string_mk_inj h
    simp only [List.cons_append, List.nil_append, List.cons.injEq] at hl
    exact absurd hl.1 (by decide)
  · rw [renderFieldName_any_metric, renderFieldName_any_metric] at h
    have hl := string_mk_inj h
    simp only [List.cons_append, List.nil_append, List.cons.injEq, true_and] at hl
    rw [titleAux_metric_inj m1 hm1 m2 hm2 hl]

theorem renderFieldName_inj {k1 k2 : String} (p1 : ProducedKey k1) (p2 : ProducedKey k2)
    (h : renderFieldName k1 = renderFieldName k2) : k1 = k2 := by
  rcases p1 with h1 | h1 <;> rcases p2 with h2 | h2
  · exact derived_inj h1 h2 h
  · exact absurd h (derived_ne_raw h1 h2)
  · exact absurd h.symm (derived_ne_raw h2 h1)
  · exact renderFieldName_raw_inj h1 h2 h

/-! Assembly: one record per qualifying key survives the dedup. -/

theorem recordForKey_fieldName {dms : List (String × MetricIndex)} {now : Nat} {key : String}
    {r : CrossRecord} (h : r ∈ recordForKey dms now key) :
    r.fieldName = renderFieldName key ∧ r.id = crossId key now := by
  unfold recordForKey at h
  split at h
  · split at h
    · rw [List.mem_singleton] at h
      subst h
      exact ⟨rfl, rfl⟩
    · simp at h
  · simp at h

theorem sameIssue_false_of_fieldName {a b : CrossRecord} (h : a.fieldName ≠ b.fieldName) :
    sameIssue a b = false := by
  unfold sameIssue
  simp [h]

theorem keepFirstAux_id :
    ∀ (l seen : List CrossRecord),
      (∀ s ∈ seen, ∀ r ∈ l, sameIssue s r = false) →
      List.Pairwise (fun a b => sameIssue a b = false) l →
      keepFirstAux seen l = l := by
  intro l
  induction l with
  | nil => intro seen _ _; rfl
  | cons r rs ih =>
    intro seen hseen hpair
    simp only [keepFirstAux]
    have hany : (seen.any fun s => sameIssue s r) = false := by
      rw [List.any_eq_false]
      intro s hs
      simp [hseen s hs r (List.mem_cons_self _ _)]
    rw [hany]
    simp only [Bool.false_eq_true, if_false]
    congr 1
    apply ih
    · intro s hs r' hr'
      rcases List.mem_append.mp hs with hs | hs
      · exact hseen s hs r' (List.mem_cons_of_mem _ hr')
      · have hsr : s = r := by simpa using hs
        subst hsr
        exact (List.pairwise_cons.mp hpair).1 r' hr'
    · exact (List.pairwise_cons.mp hpair).2

theorem rule_pairwise (dms : List (String × MetricIndex)) (now : Nat) :
    ∀ (ks : List String), ks.Nodup → (∀ k ∈ ks, ProducedKey k) →
      List.Pairwise (fun a b => sameIssue a b = false) (ks.flatMap (recordForKey dms now)) := by
  intro ks
  induction ks with
  | nil => intro _ _; simp
  | cons k kt ih =>
    intro hnd hprod
    simp only [List.flatMap_cons]
    rw [List.pairwise_append]
    refine ⟨?_, ?_, ?_⟩
    · unfold recordForKey
      split
      · split
        · simp
        · simp
      · simp
    · exact ih (List.nodup_cons.mp hnd).2 (fun x hx => hprod x (List.mem_cons_of_mem _ hx))
    · intro a ha b hb
      obtain ⟨haf, _⟩ := recordForKey_fieldName ha
      rw [List.mem_flatMap] at hb
      obtain ⟨k', hk', hbk⟩ := hb
      obtain ⟨hbf, _⟩ := recordForKey_fieldName hbk
      apply sameIssue_false_of_fieldName
      rw [haf, hbf]
      intro hrr
      have hkk : k = k' :=
        renderFieldName_inj (hprod k (List.mem_cons_self _ _))
          (hprod k' (List.mem_cons_of_mem _ hk')) hrr
      exact (List.nodup_cons.mp hnd).1 (hkk ▸ hk')

theorem crossId_inj {k1 k2 : String} {now : Nat} (h : crossId k1 now = crossId k2 now) :
    k1 = k2 := by
  unfold crossId at h
  have hd := congrArg String.data h
  simp only [String.data_append] at hd
  have h1 := List.append_cancel_right hd
  have h2 := List.append_cancel_right h1
  exact string_data_inj (List.append_cancel_left h2)

theorem recordForKey_filter_self (dms : List (String × MetricIndex)) (now : Nat)
    (key : String) :
    (recordForKey dms now key).filter (fun r => decide (r.id = crossId key now)) =
      recordForKey dms now key := by
  unfold recordForKey
  split
  · split
    · simp
    · rfl
  · rfl

theorem filter_recordForKey_other {dms : List (String × MetricIndex)} {now : Nat}
    {key k : String} (hk : k ≠ key) :
    (recordForKey dms now k).filter (fun r => decide (r.id = crossId key now)) = [] := by
  rw [List.filter_eq_nil_iff]
  intro r hr
  obtain ⟨_, hid⟩ := recordForKey_fieldName hr
  simp only [hid, decide_eq_true_eq]
  intro hc
  exact hk (crossId_inj hc)

theorem filter_flatMap_not_mem (dms : List (String × MetricIndex)) (now : Nat) (key : String) :
    ∀ ks : List String, key ∉ ks →
      ((ks.flatMap (recordForKey dms now)).filter
        (fun r => decide (r.id = crossId key now))) = [] := by
  intro ks
  induction ks with
  | nil => intro _; rfl
  | cons k kt ih =>
    intro hkey
    simp only [List.flatMap_cons, List.filter_append]
    rw [ih (fun h => hkey (List.mem_cons_of_mem _ h)),
      filter_recordForKey_other (fun h => hkey (by rw [← h]; exact List.mem_cons_self _ _)),
      List.append_nil]

theorem filter_flatMap_key (dms : List (String × MetricIndex)) (now : Nat) (key : String) :
    ∀ ks : List String, ks.Nodup → key ∈ ks →
      ((ks.flatMap (recordForKey dms now)).filter
        (fun r => decide (r.id = crossId key now))) = recordForKey dms now key := by
  intro ks
  induction ks with
  | nil => intro _ h; simp at h
  | cons k kt ih =>
    intro hnd hmem
    simp only [List.flatMap_cons, List.filter_append]
    by_cases hk : k = key
    · subst hk
      rw [recordForKey_filter_self,
        filter_flatMap_not_mem dms now k kt (List.nodup_cons.mp hnd).1, List.append_nil]
    · have hmem' : key ∈ kt := by
        rcases List.mem_cons.mp hmem with h | h
        · exact absurd h.symm hk
        · exact h
      rw [ih (List.nodup_cons.mp hnd).2 hmem', filter_recordForKey_other hk,
        List.nil_append]

/-- C7, counterexample: the claim's rendering ("underscore replaced by
space, title-cased") fails for the raw fallback keys, which only get
their first character uppercased: two documents sharing the raw key
`foo bar` with different values produce exactly one record, but its
field name is `Foo bar`, not the title-cased `Foo Bar`. -/
theorem c7_titlecase_refuted :
    (performCrossDocumentValidation [plainDocC, plainDocD] 0 (some [])).map
        CrossRecord.fieldName = ["Foo bar"] ∧
      renderFieldNameSpec "foo bar" = "Foo Bar" ∧ ("Foo bar" : String) ≠ "Foo Bar" :=
  ⟨by with_unfolding_all rfl, by with_unfolding_all rfl,
    of_decide_eq_true (by with_unfolding_all rfl)⟩

/-- C7, amended: for every key in the matcher's index (the AI pass
returning no findings): if the key is held by at least two documents and
more than one distinct value is registered under it, the final output
contains exactly one record for that key — identified by its id, which
embeds the key — with `field_name` its rendering (underscore to space
plus title case for derived keys, first-character uppercase for raw
fallback keys), `is_consistent` false, the source's error message, and
`values` the full triple list in document order; otherwise no record for
that key is emitted.  The dedup pass removes nothing here because
distinct indexed keys always render to distinct field names. -/
theorem c7_one_record_per_key (documents : List DocumentFactSet) (now : Nat) (key : String)
    (h2 : 2 ≤ documents.length) (hk : key ∈ allKeysOf (documentMetrics documents)) :
    (performCrossDocumentValidation documents now (some [])).filter
        (fun r => decide (r.id = crossId key now)) =
      (if 2 ≤ (docsWithKey (documentMetrics documents) key).length ∧
          2 ≤ (uniqueValuesFor (documentMetrics documents) key).length then
        [{ id := crossId key now
           fieldName := renderFieldName key
           validationType := "cross_reference"
           isConsistent := false
           errorMessage := inconsistencyMessage (renderFieldName key)
           values := allValuesFor (documentMetrics documents) key }]
      else []) := by
  have hlt : ¬documents.length < 2 := by omega
  unfold performCrossDocumentValidation
  rw [if_neg hlt]
  show (dedupResults (ruleInconsistencies documents now ++ [])).filter _ = _
  rw [List.append_nil]
  unfold dedupResults ruleInconsistencies
  rw [keepFirstAux_id _ [] (by intro s hs; simp at hs)
    (rule_pairwise (documentMetrics documents) now (allKeysOf (documentMetrics documents))
      (allKeysOf_nodup _) (fun _ hx => producedKey_allKeys hx))]
  rw [filter_flatMap_key _ _ _ _ (allKeysOf_nodup _) hk]
  unfold recordForKey
  by_cases hq1 : 2 ≤ (docsWithKey (documentMetrics documents) key).length
  · by_cases hq2 : 2 ≤ (uniqueValuesFor (documentMetrics documents) key).length
    · rw [if_pos hq1, if_pos hq2, if_pos ⟨hq1, hq2⟩]
    · rw [if_pos hq1, if_neg hq2, if_neg (fun hq => hq2 hq.2)]
  · rw [if_neg hq1, if_neg (fun hq => hq1 hq.1)]

/-- C7, witness: the amended statement at the running example and the key
`2024_revenue`, which qualifies and yields exactly one record. -/
theorem c7_one_record_per_key_witness :
    (performCrossDocumentValidation [reportA, reportB] 0 (some [])).filter
        (fun r => decide (r.id = crossId "2024_revenue" 0)) =
      (if 2 ≤ (docsWithKey (documentMetrics [reportA, reportB]) "2024_revenue").length ∧
          2 ≤ (uniqueValuesFor (documentMetrics [reportA, reportB]) "2024_revenue").length then
        [{ id := crossId "2024_revenue" 0
           fieldName := renderFieldName "2024_revenue"
           validationType := "cross_reference"
           isConsistent := false
           errorMessage := inconsistencyMessage (renderFieldName "2024_revenue")
           values := allValuesFor (documentMetrics [reportA, reportB]) "2024_revenue" }]
      else []) :=
  c7_one_record_per_key [reportA, reportB] 0 "2024_revenue"
    (of_decide_eq_true (by with_unfolding_all rfl))
    (of_decide_eq_true (by with_unfolding_all rfl))

/-- C4, counterexample: the claim's priority order (expense/cost before
profit/net/earnings) holds in the extractor but not in the matcher's key
derivation, which tests profit/net/earnings first; the claim's own
example context `net cost` is classified `expense` by the extractor and
`profit` by the matcher. -/
theorem c4_matcher_order_refuted :
    textMetricOf "net cost" = some "expense" ∧ matcherMetricOf "net cost" = "profit" ∧
      ("profit" : String) ≠ "expense" :=
  ⟨by with_unfolding_all rfl, by with_unfolding_all rfl,
    of_decide_eq_true (by with_unfolding_all rfl)⟩

/-- C4, amended: both cascades are first-match-wins, but their orders
differ: the extractor checks revenue/sales/income, then expense/cost
(text branch also `expenditure`), then profit/net/earnings, then
total/sum, then asset, then liability, while the matcher checks
revenue/sales/income, then profit/net/earnings, then expense/cost, then
total (no `sum`), then asset, then liability.  Hence any context free of
revenue keywords that contains both `cost` and `net` is classified
`expense` by the extractor and `profit` by the matcher. -/
theorem c4_priority_orders (s : String)
    (hrev : hasSub s "revenue" = false) (hsal : hasSub s "sales" = false)
    (hinc : hasSub s "income" = false)
    (hcost : hasSub s "cost" = true) (hnet : hasSub s "net" = true) :
    textMetricOf s = some "expense" ∧ matcherMetricOf s = "profit" := by
  constructor
  · unfold textMetricOf
    rw [hrev, hsal, hinc, hcost]
    simp
  · unfold matcherMetricOf
    rw [hrev, hsal, hinc, hnet]
    simp

/-- C4, witness: the amended statement applied to the context `net cost`. -/
theorem c4_priority_orders_witness :
    textMetricOf "net cost" = some "expense" ∧ matcherMetricOf "net cost" = "profit" :=
  c4_priority_orders "net cost"
    (of_decide_eq_true (by with_unfolding_all rfl))
    (of_decide_eq_true (by with_unfolding_all rfl))
    (of_decide_eq_true (by with_unfolding_all rfl))
    (of_decide_eq_true (by with_unfolding_all rfl))
    (of_decide_eq_true (by with_unfolding_all rfl))

/-- C5, counterexample: non-finite values are not excluded.  The
push-guard checks only `!isNaN(value) && value !== 0`; a 320-digit
literal parses past the double-precision overflow threshold, so the
extractor emits a fact whose value is positive infinity. -/
theorem c5_infinite_value_refuted :
    (extractNumericalData hugeLine []).map NumericalFact.value = [JSNum.posInf] := by
  with_unfolding_all rfl

/-- C5, amended: every fact the extractor emits has a value that is
neither `NaN` nor zero (the two conditions the push-guard actually
tests); infinite values can occur. -/
theorem c5_nonzero_nonnan (text : String) (tables : List Table) (f : NumericalFact)
    (hf : f ∈ extractNumericalData text tables) :
    f.value ≠ JSNum.nan ∧ f.value ≠ JSNum.num 0 := by
  have h := keepValue_of_mem_extract hf
  unfold keepValue at h
  simp only [Bool.and_eq_true, decide_eq_true_eq] at h
  exact h

/-- C5, witness: the amended statement applied to the fact extracted from
`$1,234.56`. -/
theorem c5_nonzero_nonnan_witness :
    ((⟨JSNum.num (1234.56 : ℚ), "number: $1,234.56", "Line 1"⟩ : NumericalFact) ∈
        extractNumericalData "$1,234.56" []) ∧
      (⟨JSNum.num (1234.56 : ℚ), "number: $1,234.56", "Line 1"⟩ : NumericalFact).value ≠
          JSNum.nan ∧
      (⟨JSNum.num (1234.56 : ℚ), "number: $1,234.56", "Line 1"⟩ : NumericalFact).value ≠
          JSNum.num 0 := by
  have he : extractNumericalData "$1,234.56" [] =
      [⟨JSNum.num (1234.56 : ℚ), "number: $1,234.56", "Line 1"⟩] := by
    with_unfolding_all rfl
  have hm : (⟨JSNum.num (1234.56 : ℚ), "number: $1,234.56", "Line 1"⟩ : NumericalFact) ∈
      extractNumericalData "$1,234.56" [] := by
    rw [he]
    exact List.mem_singleton.mpr rfl
  exact ⟨hm, (c5_nonzero_nonnan "$1,234.56" [] _ hm).1, (c5_nonzero_nonnan "$1,234.56" [] _ hm).2⟩

/-- C6: normalization of the four literal forms: `$1,234.56` gives
1234.56, `(1,234)` gives -1234 (accounting parentheses), `2.5 million`
gives 2500000, and `3K` gives 3000. -/
theorem c6_normalization_examples :
    extractNumericalData "$1,234.56" [] =
        [⟨JSNum.num (1234.56 : ℚ), "number: $1,234.56", "Line 1"⟩] ∧
      extractNumericalData "(1,234)" [] =
        [⟨JSNum.num (-1234), "number: (1,234)", "Line 1"⟩] ∧
      extractNumericalData "2.5 million" [] =
        [⟨JSNum.num 2500000, "number: 2.5 million", "Line 1"⟩] ∧
      extractNumericalData "3K" [] =
        [⟨JSNum.num 3000, "number: 3K", "Line 1"⟩] :=
  ⟨by with_unfolding_all rfl, by with_unfolding_all rfl, by with_unfolding_all rfl,
    by with_unfolding_all rfl⟩

/-- C8: with fewer than two documents the matcher short-circuits to the
empty list before reading the clock or calling the collaborator, whatever
the single document's facts contain. -/
theorem c8_single_document_empty (documents : List DocumentFactSet) (now : Nat)
    (aiResults : Option (List CrossRecord)) (h : documents.length < 2) :
    performCrossDocumentValidation documents now aiResults = [] := by
  unfold performCrossDocumentValidation
  rw [if_pos h]

/-- C8, witness: a single document with two conflicting values for the
same metric still yields the empty list. -/
theorem c8_single_document_empty_witness :
    performCrossDocumentValidation [soloDoc] 0 (some []) = [] :=
  c8_single_document_empty [soloDoc] 0 (some [])
    (of_decide_eq_true (by with_unfolding_all rfl))

/-- C9: extraction is a pure total function of `(text, tables)` in this
embedding — the source lines 80-228 perform no I/O, read no clock and
touch no shared state — so two runs on identical input are equal, lists
compare element-for-element (locations included), and every input yields
a result (malformed tokens are dropped inside the run, never thrown). -/
theorem c9_extraction_deterministic (text : String) (tables : List Table) :
    extractNumericalData text tables = extractNumericalData text tables ∧
      ∀ i : Nat, (extractNumericalData text tables).get? i =
        (extractNumericalData text tables).get? i :=
  ⟨rfl, fun _ => rfl⟩

/-- C10, counterexample: a third decimal digit does not always yield two
facts.  For the line `1.230` the leftmost match consumes `1.23` and the
remaining digit `0` is matched separately, but its value is zero, so the
zero-filter drops it and exactly one fact is emitted. -/
theorem c10_two_facts_refuted :
    extractNumericalData "1.230" [] =
      [⟨JSNum.num (1.23 : ℚ), "number: 1.230", "Line 1"⟩] := by
  with_unfolding_all rfl

/-- C10, amended: the leftmost match consumes only the first two decimal
digits and the remainder is matched as an independent candidate, each
candidate still subject to the zero/NaN filter: `1.234` yields the two
facts 1.23 and 4, while `1.230` yields only 1.23. -/
theorem c10_decimal_split :
    extractNumericalData "1.234" [] =
        [⟨JSNum.num (1.23 : ℚ), "number: 1.234", "Line 1"⟩,
         ⟨JSNum.num 4, "number: 1.234", "Line 1"⟩] ∧
      extractNumericalData "1.230" [] =
        [⟨JSNum.num (1.23 : ℚ), "number: 1.230", "Line 1"⟩] :=
  ⟨by with_unfolding_all rfl, by with_unfolding_all rfl⟩

end DocReview
